import Mathlib

/-!
Verification of the snippet bot (src/bot.py): a shallow embedding of the
snippet resolution/dispatch engine (handle_message), the save handlers
(handle_save, handle_savespicy) and the trigger-word machinery, with
theorems checking the natural-language specification against it.

Strings from the Python source are modelled as `List Char`; the snippet
directory is a store snapshot (an association list of file name to file
content plus the forward-reference mapping of meta.yaml); Telegram calls
are reified as a list of outbound requests.  Regex character classes
(`\w`) are modelled over their ASCII meaning.
-/

/-- Splits a list at the first occurrence of `stop`: returns the part
before it and the part after it, or `none` when `stop` does not occur. -/
def takeUntil (stop : Char) : List Char → Option (List Char × List Char)
  | [] => none
  | c :: r =>
    if c = stop then some ([], r)
    else
      match takeUntil stop r with
      | some (a, b) => some (c :: a, b)
      | none => none

theorem takeUntil_length (stop : Char) :
    ∀ (l a b : List Char), takeUntil stop l = some (a, b) → b.length < l.length := by
  intro l
  induction l with
  | nil => intro a b h; simp [takeUntil] at h
  | cons c r ih =>
    intro a b h
    rw [takeUntil] at h
    by_cases hc : c = stop
    · rw [if_pos hc] at h
      simp at h
      simp [← h.2]
    · rw [if_neg hc] at h
      rcases hm : takeUntil stop r with _ | p
      · rw [hm] at h; simp at h
      · rw [hm] at h
        rcases p with ⟨a', b'⟩
        simp at h
        have := ih a' b' hm
        simp [← h.2]
        omega

/-- Python `str.strip()`: removes whitespace from both ends. -/
def stripChars (l : List Char) : List Char :=
  ((l.dropWhile Char.isWhitespace).reverse.dropWhile Char.isWhitespace).reverse

/-- `pathlib.Path(...).suffix`: the extension from the last dot, empty when
the name has no dot, starts with its only dot, or ends with the dot. -/
def suffixOf (l : List Char) : List Char :=
  match takeUntil '.' l.reverse with
  | none => []
  | some (extRev, stemRev) =>
    if stemRev = [] ∨ extRev = [] then [] else '.' :: extRev.reverse

/-- The lower-cased extension, as used for media-kind selection. -/
def suffixLower (l : List Char) : List Char :=
  (suffixOf l).map Char.toLower

/-- `pathlib.Path(...).name`: the final path component. -/
def pathName (l : List Char) : List Char :=
  (l.reverse.takeWhile (fun c => c ≠ '/')).reverse

/-- Characters matched by the hashtag pattern `[\w-]` (ASCII reading). -/
def tagChar (c : Char) : Bool := c.isAlphanum || c = '_' || c = '-'

/-- Characters in the regex class `\w`, as relevant for `\b` boundaries. -/
def wordChar (c : Char) : Bool := c.isAlphanum || c = '_'

mutual

/-- Scanner state of extract_hashtags outside a match: a `#` opens a
candidate tag, everything else is skipped. -/
def ehScan : List Char → List (List Char)
  | [] => []
  | c :: rest => if c = '#' then ehWord rest [] else ehScan rest

/-- Scanner state of extract_hashtags inside `#...`: collects the
word/hyphen characters (accumulator reversed); a non-empty run is one
match of `#([\w-]+)`, lower-cased, and scanning resumes at the character
that ended it (which may itself open the next tag). -/
def ehWord : List Char → List Char → List (List Char)
  | [], acc => if acc = [] then [] else [acc.reverse.map Char.toLower]
  | c :: rest, acc =>
    if tagChar c then ehWord rest (c :: acc)
    else
      (if acc = [] then [] else [acc.reverse.map Char.toLower])
        ++ (if c = '#' then ehWord rest [] else ehScan rest)

end

/-- extract_hashtags: every match of `#([\w-]+)` lower-cased, in order. -/
def extractHashtags (l : List Char) : List (List Char) := ehScan l

/-- Whether the fixed word starts at position `i` of the text. -/
def substrAt (text t : List Char) (i : Nat) : Bool :=
  decide ((text.drop i).take t.length = t)

/-- A regex `\b` boundary at position `i` of the text: the word-character
statuses of the characters on the two sides of the position differ
(positions outside the text count as non-word). -/
def boundaryAt (text : List Char) (i : Nat) : Bool :=
  let prev := if i = 0 then none else text.get? (i - 1)
  let cur := text.get? i
  (match prev with | some c => wordChar c | none => false)
    != (match cur with | some c => wordChar c | none => false)

/-- Whether `re.search` finds `\b t \b` (with `t` literal) in the text. -/
def containsWholeWord (text t : List Char) : Bool :=
  (List.range (text.length + 1)).any
    (fun i => substrAt text t i && boundaryAt text i && boundaryAt text (i + t.length))

/-- extract_spicy_triggers: the trigger words found in the lower-cased
text as whole words, in trigger-list order. -/
def extractSpicyTriggers (text : List Char) (triggers : List (List Char)) : List (List Char) :=
  let textLc := text.map Char.toLower
  triggers.filter (fun t => containsWholeWord textLc t)

/-- load_spicy_triggers, per file name: a file `spicy-<word>.html` yields
`<word>` lower-cased (glob `spicy-*.html`, then stem split at the first
dash). -/
def spicyWord (n : List Char) : Option (List Char) :=
  if n.take 6 = ("spicy-".toList) ∧ n.drop (n.length - 5) = (".html".toList) ∧ 11 ≤ n.length
  then some (((n.drop 6).take (n.length - 11)).map Char.toLower)
  else none

/-- load_spicy_triggers: trigger words from the `spicy-*.html` snippet
files currently in the store snapshot. -/
def loadSpicyTriggers (fileNames : List (List Char)) : List (List Char) :=
  fileNames.filterMap spicyWord

/-- Telegram parse modes used by the bot. -/
inductive PM
  | markdownV2
  | html
deriving DecidableEq, Repr

/-- Media kinds chosen by the extension rule of handle_message. -/
inductive MKind
  | photo
  | video
  | audio
  | document
deriving DecidableEq, Repr

/-- One item of a media group (InputMediaPhoto/Video/Audio/Document). -/
structure MediaItem where
  kind : MKind
  file : List Char
  caption : Option (List Char)
  parseMode : Option PM
deriving DecidableEq, Repr

/-- An outbound Telegram request issued by the bot. -/
inductive Req
  | sendMsg (chatId : Int) (text : List Char) (parseMode : Option PM) (replyTo : Option Int)
  | sendVoice (chatId : Int) (file : List Char) (caption : Option (List Char))
      (parseMode : Option PM) (replyTo : Option Int)
  | sendMediaGroup (chatId : Int) (items : List MediaItem) (replyTo : Option Int)
  | copyMsg (chatId fromChatId messageId : Int) (replyTo : Option Int)
deriving DecidableEq, Repr

/-- Whether a request is a copy-remote-message request. -/
def Req.isCopy : Req → Bool
  | .copyMsg _ _ _ _ => true
  | _ => false

/-- Association-list lookup by file name or key. -/
def alookup {α : Type} : List (List Char × α) → List Char → Option α
  | [], _ => none
  | (k', v) :: rest, k => if k' = k then some v else alookup rest k

/-- Association-list write: overwrite the entry of the key, else append. -/
def aset {α : Type} : List (List Char × α) → List Char → α → List (List Char × α)
  | [], k, v => [(k, v)]
  | (k', v') :: rest, k, v => if k' = k then (k, v) :: rest else (k', v') :: aset rest k v

/-- The forward-reference mapping of meta.yaml: key to (chat id, message id). -/
abbrev Meta := List (List Char × Int × Int)

/-- lookup of a key in the forward-reference mapping. -/
def lookupMeta (meta : Meta) (k : List Char) : Option (Int × Int) :=
  alookup meta k

/-- `meta[k] = v`. -/
def metaSet (meta : Meta) (k : List Char) (v : Int × Int) : Meta :=
  aset meta k v

/-- `del meta[k]` (no-op when the key is absent). -/
def metaErase (meta : Meta) (k : List Char) : Meta :=
  meta.filter (fun e => decide (e.1 ≠ k))

/-- A snapshot of the snips directory plus the forward-reference mapping.
File contents matter only for the `.md`/`.html` text artifacts; media
files are carried with opaque (empty) content. -/
structure Store where
  meta : Meta
  files : List (List Char × List Char)
deriving DecidableEq, Repr

/-- The file names present in the store snapshot. -/
def fileNames (files : List (List Char × List Char)) : List (List Char) :=
  files.map Prod.fst

/-- Lexicographic comparison of names (Python string ordering). -/
def lexLe : List Char → List Char → Bool
  | [], _ => true
  | _ :: _, [] => false
  | a :: as, b :: bs => if a = b then lexLe as bs else decide (a < b)

/-- Stable insertion into a sorted list of names. -/
def insertSorted (n : List Char) : List (List Char) → List (List Char)
  | [] => [n]
  | m :: rest => if lexLe n m then n :: m :: rest else m :: insertSorted n rest

/-- `sorted(...)` over file names (stable, total lexicographic order). -/
def sortNames : List (List Char) → List (List Char)
  | [] => []
  | n :: rest => insertSorted n (sortNames rest)

/-- `sorted(SNIPS.glob(f"{tag}_*"))`: the store file names that start with
the key followed by an underscore, in sorted order. -/
def globUnderscore (names : List (List Char)) (tag : List Char) : List (List Char) :=
  sortNames (names.filter (fun n => decide (n.take (tag.length + 1) = tag ++ ['_'])))

/-- MEDIA_RE body from the `[`: `\[[^\]]*\]\(([^)]+)\)`, returning the
matched text, the link target group and the rest of the input. -/
def matchCore (l : List Char) : Option (List Char × List Char × List Char) :=
  match l with
  | [] => none
  | c :: r1 =>
    if c = '[' then
      match takeUntil ']' r1 with
      | some (alt, r2) =>
        match r2 with
        | [] => none
        | c2 :: r3 =>
          if c2 = '(' then
            match takeUntil ')' r3 with
            | some (rel, r4) =>
              if rel = [] then none
              else some ('[' :: alt ++ ']' :: '(' :: rel ++ [')'], rel, r4)
            | none => none
          else none
      | none => none
    else none

/-- A match of MEDIA_RE = `!?\[[^\]]*\]\(([^)]+)\)` at the head of the
input: the matched text, the link target and the rest. -/
def tryMatchMedia (l : List Char) : Option (List Char × List Char × List Char) :=
  match l with
  | [] => none
  | c :: r =>
    if c = '!' then
      match matchCore r with
      | some (m, rel, rest) => some ('!' :: m, rel, rest)
      | none => none
    else matchCore (c :: r)

theorem matchCore_length {l m rel rest : List Char}
    (h : matchCore l = some (m, rel, rest)) : rest.length < l.length := by
  cases l with
  | nil => simp [matchCore] at h
  | cons c r1 =>
    rw [matchCore] at h
    by_cases hc : c = '['
    · rw [if_pos hc] at h
      rcases hTU : takeUntil ']' r1 with _ | ⟨alt, r2⟩
      · rw [hTU] at h; simp at h
      · rw [hTU] at h
        cases r2 with
        | nil => simp at h
        | cons c2 r3 =>
          simp only [] at h
          by_cases hc2 : c2 = '('
          · rw [if_pos hc2] at h
            rcases hTU2 : takeUntil ')' r3 with _ | ⟨rel', r4⟩
            · rw [hTU2] at h; simp at h
            · rw [hTU2] at h
              simp only [] at h
              by_cases hrel : rel' = []
              · rw [if_pos hrel] at h; simp at h
              · rw [if_neg hrel] at h
                simp at h
                have h1 := takeUntil_length ']' r1 alt (c2 :: r3) hTU
                have h2 := takeUntil_length ')' r3 rel' r4 hTU2
                rcases h with ⟨_, _, h3⟩
                subst h3
                simp at h1 ⊢
                omega
          · rw [if_neg hc2] at h; simp at h
    · rw [if_neg hc] at h; simp at h

theorem tryMatchMedia_length {l m rel rest : List Char}
    (h : tryMatchMedia l = some (m, rel, rest)) : rest.length < l.length := by
  cases l with
  | nil => simp [tryMatchMedia] at h
  | cons c r =>
    rw [tryMatchMedia] at h
    by_cases hc : c = '!'
    · rw [if_pos hc] at h
      rcases hmc : matchCore r with _ | ⟨m', p⟩
      · rw [hmc] at h; simp at h
      · rw [hmc] at h
        rcases p with ⟨rel', rest'⟩
        simp at h
        rcases h with ⟨_, _, h3⟩
        subst h3
        have := matchCore_length hmc
        simp
        omega
    · rw [if_neg hc] at h
      exact matchCore_length h

/-- parse_markdown_media: replaces every markdown media reference whose
(stripped) target exists in the store with nothing, collecting the
targets; non-existing references are kept in the text.  Returns the
remaining text and the collected media names in order. -/
def parseMarkdownMedia (names : List (List Char)) : List Char → List Char × List (List Char)
  | [] => ([], [])
  | c :: rest =>
    match h : tryMatchMedia (c :: rest) with
    | some (m, rel, after) =>
      let relStripped := stripChars rel
      let r := parseMarkdownMedia names after
      if relStripped ∈ names then (r.1, relStripped :: r.2) else (m ++ r.1, r.2)
    | none =>
      let r := parseMarkdownMedia names rest
      (c :: r.1, r.2)
termination_by l => l.length
decreasing_by
  · exact tryMatchMedia_length h
  · simp

/-- Extensions sent as InputMediaPhoto. -/
def photoExts : List (List Char) :=
  [".jpg".toList, ".jpeg".toList, ".png".toList, ".gif".toList]

/-- Extensions sent as InputMediaVideo. -/
def videoExts : List (List Char) :=
  [".mp4".toList, ".mov".toList, ".mkv".toList, ".webm".toList]

/-- Extensions sent as InputMediaAudio (and as voice notes when alone). -/
def voiceExts : List (List Char) :=
  [".oga".toList, ".ogg".toList, ".opus".toList]

/-- The extension-based media kind of a stored file. -/
def kindOf (p : List Char) : MKind :=
  let ext := suffixLower p
  if ext ∈ photoExts then .photo
  else if ext ∈ videoExts then .video
  else if ext ∈ voiceExts then .audio
  else .document

/-- One markdown-branch media-group item: the caption goes on index 0
only, and only when the body is non-empty and not over the length limit;
parse mode is MARKDOWN_V2 on every item. -/
def mdItem (capEsc : List Char) (firstCapAllowed : Bool) (idx : Nat) (q : List Char) :
    MediaItem :=
  ⟨kindOf q, q, if idx = 0 ∧ firstCapAllowed = true then some capEsc else none,
    some PM.markdownV2⟩

/-- The markdown-branch media group, built with a running index as by
`enumerate` in the source. -/
def mdGroupAux (capEsc : List Char) (firstCapAllowed : Bool) :
    Nat → List (List Char) → List MediaItem
  | _, [] => []
  | idx, q :: qs => mdItem capEsc firstCapAllowed idx q :: mdGroupAux capEsc firstCapAllowed (idx + 1) qs

/-- The markdown-branch media group starting at index 0. -/
def mdGroup (capEsc : List Char) (firstCapAllowed : Bool) (media : List (List Char)) :
    List MediaItem :=
  mdGroupAux capEsc firstCapAllowed 0 media

/-- One HTML-branch media-group item: the full HTML body is the caption
of index 0 (with HTML parse mode); every other item has neither. -/
def htmlItem (html : List Char) (idx : Nat) (q : List Char) : MediaItem :=
  ⟨kindOf q, q, if idx = 0 then some html else none,
    if idx = 0 then some PM.html else none⟩

/-- The HTML-branch media group, built with a running index. -/
def htmlGroupAux (html : List Char) : Nat → List (List Char) → List MediaItem
  | _, [] => []
  | idx, q :: qs => htmlItem html idx q :: htmlGroupAux html (idx + 1) qs

/-- The HTML-branch media group starting at index 0. -/
def htmlGroup (html : List Char) (files : List (List Char)) : List MediaItem :=
  htmlGroupAux html 0 files

/-- escape_markdown(text, version=2) of telegram.helpers: every character
in the MarkdownV2 escape set is preceded by a backslash. -/
def escV2Chars : List Char :=
  ['\\', '_', '*', '[', ']', '(', ')', '~', '\x60', '>', '#', '+', '-', '=', '|',
   '\x7b', '\x7d', '.', '!']

/-- Whether a character is escaped by escape_markdown version 2. -/
def isEscV2 (c : Char) : Bool := decide (c ∈ escV2Chars)

/-- escape_markdown(text, version=2). -/
def escapeMarkdown : List Char → List Char
  | [] => []
  | c :: l => (if isEscV2 c then ['\\', c] else [c]) ++ escapeMarkdown l

/-- Python `s.replace("\\" + b, b)`: removes the backslash before every
escaped occurrence of `b`, scanning left to right. -/
def unescOne (b : Char) : List Char → List Char
  | [] => []
  | [c] => [c]
  | c :: d :: rest =>
    if c = '\\' ∧ d = b then d :: unescOne b rest
    else c :: unescOne b (d :: rest)

/-- The selective un-escaping loop `for ch in "*_[]()"` of the source. -/
def unescapeSpecials (l : List Char) : List Char :=
  unescOne ')' (unescOne '(' (unescOne ']' (unescOne '[' (unescOne '_' (unescOne '*' l)))))

/-- The markdown body as actually delivered: escape_markdown version 2
followed by the selective un-escaping of `* _ [ ] ( )`. -/
def mdEscape (l : List Char) : List Char :=
  unescapeSpecials (escapeMarkdown l)

/-- The markdown branch of the hashtag loop of handle_message, given the
remaining body text and the existing media files; every reply threads
under reply_target. -/
def mdSendsTag (chatId rt : Int) (plainText : List Char) (existingMedia : List (List Char)) :
    List Req :=
  match existingMedia with
  | [] =>
    if plainText ≠ [] then
      [.sendMsg chatId (mdEscape plainText) (some .markdownV2) (some rt)]
    else []
  | p :: rest =>
    let caption := plainText
    let longCaption : Bool := decide (caption ≠ []) && decide (1024 < caption.length)
    let captionEscaped := if caption ≠ [] then mdEscape caption else []
    if rest = [] ∧ suffixLower p ∈ voiceExts then
      [.sendVoice chatId p (if longCaption = false then some captionEscaped else none)
        (if caption ≠ [] ∧ longCaption = false then some .markdownV2 else none) (some rt)]
      ++ (if longCaption = true then [.sendMsg chatId captionEscaped none (some rt)] else [])
    else
      let group := mdGroup captionEscaped (decide (caption ≠ []) && !longCaption) (p :: rest)
      (if longCaption = true then [.sendMsg chatId captionEscaped none (some rt)] else [])
      ++ (if group ≠ [] then [.sendMediaGroup chatId group (some rt)] else [])

/-- The markdown branch of the spicy-trigger loop of handle_message: the
same composition, but replies thread under spicy_target, except the
separate long-caption text before a media group, which the source sends
to reply_target. -/
def mdSendsSpicy (chatId rt st : Int) (plainText : List Char)
    (existingMedia : List (List Char)) : List Req :=
  match existingMedia with
  | [] =>
    if plainText ≠ [] then
      [.sendMsg chatId (mdEscape plainText) (some .markdownV2) (some st)]
    else []
  | p :: rest =>
    let caption := plainText
    let longCaption : Bool := decide (caption ≠ []) && decide (1024 < caption.length)
    let captionEscaped := if caption ≠ [] then mdEscape caption else []
    if rest = [] ∧ suffixLower p ∈ voiceExts then
      [.sendVoice chatId p (if longCaption = false then some captionEscaped else none)
        (if caption ≠ [] ∧ longCaption = false then some .markdownV2 else none) (some st)]
      ++ (if longCaption = true then [.sendMsg chatId captionEscaped none (some st)] else [])
    else
      let group := mdGroup captionEscaped (decide (caption ≠ []) && !longCaption) (p :: rest)
      (if longCaption = true then [.sendMsg chatId captionEscaped none (some rt)] else [])
      ++ (if group ≠ [] then [.sendMediaGroup chatId group (some st)] else [])

/-- The HTML branch of the hashtag loop of handle_message: a single voice
note is sent as a voice message (to spicy_target, as in the source); any
other media set becomes one media group, and no media at all becomes an
HTML text message (both to reply_target). -/
def htmlSendsTag (chatId rt st : Int) (html : List Char) (files : List (List Char)) :
    List Req :=
  if files.length = 1 ∧ suffixLower (files.headD []) ∈ voiceExts then
    [.sendVoice chatId (files.headD []) (some html)
      (if html ≠ [] then some PM.html else none) (some st)]
  else
    let group := htmlGroup html files
    if group ≠ [] then
      [.sendMediaGroup chatId group (some rt)]
    else
      [.sendMsg chatId html (some PM.html) (some rt)]

/-- The HTML branch of the spicy-trigger loop of handle_message: every
reply threads under spicy_target. -/
def htmlSendsSpicy (chatId st : Int) (html : List Char) (files : List (List Char)) :
    List Req :=
  if files.length = 1 ∧ suffixLower (files.headD []) ∈ voiceExts then
    [.sendVoice chatId (files.headD []) (some html)
      (if html ≠ [] then some PM.html else none) (some st)]
  else
    let group := htmlGroup html files
    if group ≠ [] then
      [.sendMediaGroup chatId group (some st)]
    else
      [.sendMsg chatId html (some PM.html) (some st)]

/-- One iteration of the hashtag loop of handle_message: a stored
forward-reference wins and is served as a single copy_message; otherwise
the `.md` artifact is tried, then the `.html` artifact, then the tag is
skipped silently. -/
def tagSends (s : Store) (chatId rt st : Int) (tag : List Char) : List Req :=
  match lookupMeta s.meta tag with
  | some (fc, fm) => [.copyMsg chatId fc fm (some rt)]
  | none =>
    match alookup s.files (tag ++ ".md".toList) with
    | some md =>
      let pm := parseMarkdownMedia (fileNames s.files) md
      let existingMedia := pm.2.filter (fun q => decide (q ∈ fileNames s.files))
      mdSendsTag chatId rt pm.1 existingMedia
    | none =>
      match alookup s.files (tag ++ ".html".toList) with
      | none => []
      | some html => htmlSendsTag chatId rt st html (globUnderscore (fileNames s.files) tag)

/-- One iteration of the spicy-trigger loop of handle_message for trigger
word `w` (key `spicy-w`): the forward-reference mapping is never
consulted. -/
def spicySends (s : Store) (chatId rt st : Int) (w : List Char) : List Req :=
  let tag := "spicy-".toList ++ w
  match alookup s.files (tag ++ ".md".toList) with
  | some md =>
    let pm := parseMarkdownMedia (fileNames s.files) md
    let existingMedia := pm.2.filter (fun q => decide (q ∈ fileNames s.files))
    mdSendsSpicy chatId rt st pm.1 existingMedia
  | none =>
    match alookup s.files (tag ++ ".html".toList) with
    | none => []
    | some html => htmlSendsSpicy chatId st html (globUnderscore (fileNames s.files) tag)

/-- An inbound text message as seen by handle_message. -/
structure Msg where
  text : List Char
  messageId : Int
  replyToId : Option Int
  chatId : Int
deriving DecidableEq, Repr

/-- handle_message: extracts hashtags and currently-active spicy trigger
words, computes the two reply targets once, and serves every resolved
key in order (hashtags first, then trigger words). -/
def handleMessage (m : Msg) (s : Store) : List Req :=
  if m.text = [] then []
  else
    let rt := match m.replyToId with | some p => p | none => m.messageId
    let chatId := m.chatId
    let hashtags := extractHashtags m.text
    let spicyWords := loadSpicyTriggers (fileNames s.files)
    let spicyMatches := extractSpicyTriggers m.text spicyWords
    let st := m.messageId
    if hashtags = [] ∧ spicyMatches = [] then []
    else
      hashtags.flatMap (tagSends s chatId rt st)
        ++ spicyMatches.flatMap (spicySends s chatId rt st)

/-- One media attachment of the replied-to message, with the reported
size, the optional original file name, the transport file path of its
fetched file handle, the unique id, and whether downloading succeeds. -/
structure MediaEnt where
  fileSize : Nat
  fileName : Option (List Char)
  filePath : Option (List Char)
  fileUniqueId : List Char
  downloadOk : Bool
deriving DecidableEq, Repr

/-- A /save or /savespicy command invocation: the caller, the admin
whitelist, the command arguments, and the replied-to source message with
its text/caption (as HTML) and typed attachments. -/
structure SaveUpd where
  userId : Int
  adminIds : List Int
  chatId : Int
  args : List (List Char)
  hasReply : Bool
  replyTextHtml : Option (List Char)
  replyCaptionHtml : Option (List Char)
  replyChatId : Int
  replyMessageId : Int
  photo : List MediaEnt
  document : Option MediaEnt
  video : Option MediaEnt
  audio : Option MediaEnt
  voice : Option MediaEnt
  animation : Option MediaEnt
  videoNote : Option MediaEnt
deriving DecidableEq, Repr

/-- MAX_MEDIA_SAVE_SIZE = 10 MiB. -/
def maxMediaSaveSize : Nat := 10 * 1024 * 1024

/-- The attachment candidates in source order: the highest-resolution
photo variant, then document, video, audio, voice, animation, video
note. -/
def mediaEntriesOf (u : SaveUpd) : List MediaEnt :=
  (match u.photo.getLast? with | some e => [e] | none => [])
    ++ [u.document, u.video, u.audio, u.voice, u.animation, u.videoNote].filterMap id

/-- The sum of the reported attachment sizes. -/
def totalMediaSize (u : SaveUpd) : Nat :=
  ((mediaEntriesOf u).map MediaEnt.fileSize).sum

/-- The text/caption parts kept for the snippet body (Python truthiness:
empty strings are dropped). -/
def partsOf (u : SaveUpd) : List (List Char) :=
  (match u.replyTextHtml with
   | some t => if t = [] then [] else [t]
   | none => [])
    ++ (match u.replyCaptionHtml with
        | some t => if t = [] then [] else [t]
        | none => [])

/-- The content written to the `.html` artifact:
`"\n".join(parts).strip() + "\n"`. -/
def htmlContent (u : SaveUpd) : List Char :=
  stripChars (List.intercalate ['\n'] (partsOf u)) ++ ['\n']

/-- `file_path or file_unique_id` (Python `or`: empty strings fall
through). -/
def orElseNE (a : Option (List Char)) (b : List Char) : List Char :=
  match a with
  | some x => if x = [] then b else x
  | none => b

/-- handle_save file-name choice: the attachment file name when truthy,
else the name component of the transport file path (or the unique id). -/
def fnameSave (e : MediaEnt) : List Char :=
  match e.fileName with
  | some n => if n = [] then pathName (orElseNE e.filePath e.fileUniqueId) else n
  | none => pathName (orElseNE e.filePath e.fileUniqueId)

/-- handle_savespicy file-name choice: `getattr` with a default. -/
def fnameSavespicy (e : MediaEnt) : List Char :=
  match e.fileName with
  | some n => n
  | none => pathName (orElseNE e.filePath e.fileUniqueId)

/-- The key-derived media file name `{key}_{idx}{suffix-of-fname}`. -/
def mediaSavePath (key : List Char) (idx : Nat) (fname : List Char) : List Char :=
  key ++ '_' :: (toString idx).toList ++ suffixOf fname

/-- The download loop: each attachment whose download succeeds is stored
under the key-derived name; failures are skipped. -/
def doDownloads (fnameOf : MediaEnt → List Char) (key : List Char) :
    Nat → List (List Char × List Char) → List MediaEnt → List (List Char × List Char)
  | _, files, [] => files
  | idx, files, e :: rest =>
    let files' := if e.downloadOk then aset files (mediaSavePath key idx (fnameOf e)) [] else files
    doDownloads fnameOf key (idx + 1) files' rest

/-- Permission-denied reply text. -/
def permissionDeniedText (uid : Int) : List Char :=
  "ERROR: Permission denied (".toList ++ (toString uid).toList ++ ")".toList

/-- Usage reply of /saveng. -/
def usageSaveText : List Char :=
  "Usage: /saveng nameofhashtag (alias: /save)".toList

/-- Usage reply of /savespicy. -/
def usageSavespicyText : List Char :=
  "Usage: /savespicy triggerword".toList

/-- Forward-only confirmation text of /saveng. -/
def savedForwardText (k : List Char) : List Char :=
  "Saved snippet \x27".toList ++ k ++ "\x27 (forward-only; media too large)".toList

/-- Local-save confirmation text of /saveng. -/
def savedLocalText (k : List Char) : List Char :=
  "Saved snip \x27".toList ++ k ++ "\x27 (HTML mode)".toList

/-- Confirmation text of /savespicy. -/
def savedSpicyText (t : List Char) : List Char :=
  "Saved spicy snip \x27".toList ++ t ++ "\x27 (HTML mode)".toList

/-- handle_save: admission checks, then the 10 MiB threshold decides
between a forward-reference write and a local save; a local save removes
any forward-reference entry for the key.  Returns the replies sent and
the store after the command. -/
def handleSave (u : SaveUpd) (s : Store) : List Req × Store :=
  if u.hasReply = false then ([], s)
  else if u.userId ∉ u.adminIds then
    ([.sendMsg u.chatId (permissionDeniedText u.userId) none none], s)
  else
    match u.args with
    | [] => ([.sendMsg u.chatId usageSaveText none none], s)
    | a :: _ =>
      let hashtag := a.map Char.toLower
      let entries := mediaEntriesOf u
      if maxMediaSaveSize < totalMediaSize u then
        ([.sendMsg u.chatId (savedForwardText hashtag) none none],
         { s with meta := metaSet s.meta hashtag (u.replyChatId, u.replyMessageId) })
      else
        let files1 := doDownloads fnameSave hashtag 0 s.files entries
        let files2 := aset files1 (hashtag ++ ".html".toList) (htmlContent u)
        let meta2 := metaErase s.meta hashtag
        ([.sendMsg u.chatId (savedLocalText hashtag) none none],
         { meta := meta2, files := files2 })

/-- handle_savespicy: admission checks, then always a local save under
key `spicy-<word>`, with no size threshold and no removal of a
forward-reference entry. -/
def handleSavespicy (u : SaveUpd) (s : Store) : List Req × Store :=
  if u.hasReply = false then ([], s)
  else if u.userId ∉ u.adminIds then
    ([.sendMsg u.chatId (permissionDeniedText u.userId) none none], s)
  else
    match u.args with
    | [] => ([.sendMsg u.chatId usageSavespicyText none none], s)
    | a :: _ =>
      let trig := a.map Char.toLower
      let fullname := "spicy-".toList ++ trig
      let entries := mediaEntriesOf u
      let files1 := doDownloads fnameSavespicy fullname 0 s.files entries
      let files2 := aset files1 (fullname ++ ".html".toList) (htmlContent u)
      ([.sendMsg u.chatId (savedSpicyText trig) none none],
       { s with files := files2 })

/-- The six characters deliberately un-escaped by the source. -/
def sixSpecials : List Char := ['*', '_', '[', ']', '(', ')']

/-- Character-level specification of the delivered markdown escaping:
every MarkdownV2-escaped character except the six specials gets a
backslash; the six specials and everything else stay bare. -/
def mdEscapeChar (c : Char) : List Char :=
  if isEscV2 c = true ∧ c ∉ sixSpecials then ['\\', c] else [c]

theorem unescOne_cons (b x : Char) (hx : x ≠ '\\') (l : List Char) :
    unescOne b (x :: l) = x :: unescOne b l := by
  cases l with
  | nil => simp [unescOne]
  | cons d rest =>
    rw [unescOne, if_neg]
    intro hcon
    exact hx hcon.1

theorem unescOne_hit (b : Char) (l : List Char) :
    unescOne b ('\\' :: b :: l) = b :: unescOne b l := by
  rw [unescOne, if_pos ⟨rfl, rfl⟩]

theorem unescOne_miss (b x : Char) (hxb : x ≠ b) (hx : x ≠ '\\') (l : List Char) :
    unescOne b ('\\' :: x :: l) = '\\' :: x :: unescOne b l := by
  rw [unescOne, if_neg (fun hcon => hxb hcon.2), unescOne_cons b x hx]

theorem mdEscape_cons (c : Char) (hc : c ≠ '\\') (l : List Char) :
    mdEscape (c :: l) = mdEscapeChar c ++ mdEscape l := by
  by_cases hE : isEscV2 c = true
  · have h1 : mdEscape (c :: l) = unescapeSpecials ('\\' :: c :: escapeMarkdown l) := by
      simp [mdEscape, escapeMarkdown, hE]
    by_cases e1 : c = '*'
    · subst e1
      rw [h1]
      simp only [unescapeSpecials]
      rw [unescOne_hit, unescOne_cons '_' '*' (by decide), unescOne_cons '[' '*' (by decide),
        unescOne_cons ']' '*' (by decide), unescOne_cons '(' '*' (by decide),
        unescOne_cons ')' '*' (by decide)]
      rw [show mdEscapeChar '*' = ['*'] from by decide]
      simp [mdEscape, unescapeSpecials]
    by_cases e2 : c = '_'
    · subst e2
      rw [h1]
      simp only [unescapeSpecials]
      rw [unescOne_miss '*' '_' (by decide) (by decide), unescOne_hit,
        unescOne_cons '[' '_' (by decide), unescOne_cons ']' '_' (by decide),
        unescOne_cons '(' '_' (by decide), unescOne_cons ')' '_' (by decide)]
      rw [show mdEscapeChar '_' = ['_'] from by decide]
      simp [mdEscape, unescapeSpecials]
    by_cases e3 : c = '['
    · subst e3
      rw [h1]
      simp only [unescapeSpecials]
      rw [unescOne_miss '*' '[' (by decide) (by decide),
        unescOne_miss '_' '[' (by decide) (by decide), unescOne_hit,
        unescOne_cons ']' '[' (by decide), unescOne_cons '(' '[' (by decide),
        unescOne_cons ')' '[' (by decide)]
      rw [show mdEscapeChar '[' = ['['] from by decide]
      simp [mdEscape, unescapeSpecials]
    by_cases e4 : c = ']'
    · subst e4
      rw [h1]
      simp only [unescapeSpecials]
      rw [unescOne_miss '*' ']' (by decide) (by decide),
        unescOne_miss '_' ']' (by decide) (by decide),
        unescOne_miss '[' ']' (by decide) (by decide), unescOne_hit,
        unescOne_cons '(' ']' (by decide), unescOne_cons ')' ']' (by decide)]
      rw [show mdEscapeChar ']' = [']'] from by decide]
      simp [mdEscape, unescapeSpecials]
    by_cases e5 : c = '('
    · subst e5
      rw [h1]
      simp only [unescapeSpecials]
      rw [unescOne_miss '*' '(' (by decide) (by decide),
        unescOne_miss '_' '(' (by decide) (by decide),
        unescOne_miss '[' '(' (by decide) (by decide),
        unescOne_miss ']' '(' (by decide) (by decide), unescOne_hit,
        unescOne_cons ')' '(' (by decide)]
      rw [show mdEscapeChar '(' = ['('] from by decide]
      simp [mdEscape, unescapeSpecials]
    by_cases e6 : c = ')'
    · subst e6
      rw [h1]
      simp only [unescapeSpecials]
      rw [unescOne_miss '*' ')' (by decide) (by decide),
        unescOne_miss '_' ')' (by decide) (by decide),
        unescOne_miss '[' ')' (by decide) (by decide),
        unescOne_miss ']' ')' (by decide) (by decide),
        unescOne_miss '(' ')' (by decide) (by decide), unescOne_hit]
      rw [show mdEscapeChar ')' = [')'] from by decide]
      simp [mdEscape, unescapeSpecials]
    · rw [h1]
      simp only [unescapeSpecials]
      rw [unescOne_miss '*' c e1 hc, unescOne_miss '_' c e2 hc, unescOne_miss '[' c e3 hc,
        unescOne_miss ']' c e4 hc, unescOne_miss '(' c e5 hc, unescOne_miss ')' c e6 hc]
      have hm : mdEscapeChar c = ['\\', c] := by
        rw [mdEscapeChar, if_pos]
        refine ⟨hE, ?_⟩
        simp [sixSpecials, e1, e2, e3, e4, e5, e6]
      rw [hm]
      simp [mdEscape, unescapeSpecials]
  · have h1 : mdEscape (c :: l) = unescapeSpecials (c :: escapeMarkdown l) := by
      simp [mdEscape, escapeMarkdown, hE]
    rw [h1]
    simp only [unescapeSpecials]
    rw [unescOne_cons '*' c hc, unescOne_cons '_' c hc, unescOne_cons '[' c hc,
      unescOne_cons ']' c hc, unescOne_cons '(' c hc, unescOne_cons ')' c hc]
    have hm : mdEscapeChar c = [c] := by simp [mdEscapeChar, hE]
    rw [hm]
    simp [mdEscape, unescapeSpecials]

theorem mdEscape_eq_flatMap (l : List Char) (h : '\\' ∉ l) :
    mdEscape l = l.flatMap mdEscapeChar := by
  induction l with
  | nil => rfl
  | cons c t ih =>
    have hc : c ≠ '\\' := by intro hcc; exact h (by simp [hcc])
    have ht : '\\' ∉ t := by intro hm; exact h (by simp [hm])
    rw [List.flatMap_cons, mdEscape_cons c hc t, ih ht]

theorem lookupMeta_metaErase (m : Meta) (k : List Char) :
    lookupMeta (metaErase m k) k = none := by
  induction m with
  | nil => rfl
  | cons e rest ih =>
    obtain ⟨k1, v1⟩ := e
    by_cases he : k1 = k
    · simpa [metaErase, List.filter_cons, he] using ih
    · simpa [metaErase, List.filter_cons, he, lookupMeta, alookup] using ih

theorem mem_fileNames_aset (files : List (List Char × List Char)) (name v : List Char) :
    name ∈ fileNames (aset files name v) := by
  induction files with
  | nil => simp [aset, fileNames]
  | cons e rest ih =>
    obtain ⟨k1, v1⟩ := e
    by_cases he : k1 = name
    · simp [aset, he, fileNames]
    · simp only [aset, fileNames, List.map_cons] at ih ⊢
      rw [if_neg he]
      exact List.mem_cons_of_mem _ ih

theorem mdGroupAux_caption_none (cap : List Char) (fca : Bool) :
    ∀ (qs : List (List Char)) (i : Nat) (it : MediaItem),
      it ∈ mdGroupAux cap fca (i + 1) qs → it.caption = none := by
  intro qs
  induction qs with
  | nil => intro i it h; simp [mdGroupAux] at h
  | cons q rest ih =>
    intro i it h
    rw [mdGroupAux] at h
    rcases List.mem_cons.mp h with h1 | h1
    · subst h1; simp [mdItem]
    · exact ih (i + 1) it h1

theorem mdGroup_false_caption_none (cap : List Char) (qs : List (List Char)) :
    ∀ it ∈ mdGroup cap false qs, it.caption = none := by
  intro it h
  cases qs with
  | nil => simp [mdGroup, mdGroupAux] at h
  | cons q rest =>
    rw [mdGroup, mdGroupAux] at h
    rcases List.mem_cons.mp h with h1 | h1
    · subst h1; simp [mdItem]
    · exact mdGroupAux_caption_none cap false rest 0 it h1

theorem htmlGroupAux_caption_none (html : List Char) :
    ∀ (qs : List (List Char)) (i : Nat) (it : MediaItem),
      it ∈ htmlGroupAux html (i + 1) qs → it.caption = none := by
  intro qs
  induction qs with
  | nil => intro i it h; simp [htmlGroupAux] at h
  | cons q rest ih =>
    intro i it h
    rw [htmlGroupAux] at h
    rcases List.mem_cons.mp h with h1 | h1
    · subst h1; simp [htmlItem]
    · exact ih (i + 1) it h1

theorem mdSendsSpicy_not_copy (chatId rt st : Int) (pt : List Char)
    (em : List (List Char)) : ∀ r ∈ mdSendsSpicy chatId rt st pt em, r.isCopy = false := by
  intro r hr
  unfold mdSendsSpicy at hr
  cases em with
  | nil =>
    dsimp only at hr
    split_ifs at hr <;>
      first
        | (simp only [List.mem_append, List.mem_cons, List.mem_singleton, List.not_mem_nil,
              or_false, false_or] at hr
           rcases hr with rfl | rfl <;> rfl)
        | (simp only [List.mem_append, List.mem_cons, List.mem_singleton, List.not_mem_nil,
              or_false, false_or] at hr
           subst hr
           rfl)
        | simp at hr
  | cons p rest =>
    dsimp only at hr
    split_ifs at hr <;>
      first
        | (simp only [List.mem_append, List.mem_cons, List.mem_singleton, List.not_mem_nil,
              or_false, false_or] at hr
           rcases hr with rfl | rfl <;> rfl)
        | (simp only [List.mem_append, List.mem_cons, List.mem_singleton, List.not_mem_nil,
              or_false, false_or] at hr
           subst hr
           rfl)
        | simp at hr

theorem htmlSendsSpicy_not_copy (chatId st : Int) (html : List Char)
    (files : List (List Char)) : ∀ r ∈ htmlSendsSpicy chatId st html files, r.isCopy = false := by
  intro r hr
  unfold htmlSendsSpicy at hr
  dsimp only at hr
  split_ifs at hr <;>
    first
      | (simp only [List.mem_singleton] at hr
         subst hr
         rfl)
      | simp at hr

theorem spicyWord_eq_some (n w : List Char) :
    spicyWord n = some w
      ↔ ∃ v, n = "spicy-".toList ++ v ++ ".html".toList ∧ w = v.map Char.toLower := by
  constructor
  · intro h
    unfold spicyWord at h
    split at h
    · rename_i hcond
      obtain ⟨h1, h2, h3⟩ := hcond
      simp only [Option.some_inj] at h
      refine ⟨(n.drop 6).take (n.length - 11), ?_, h.symm⟩
      conv_lhs => rw [← List.take_append_drop 6 n]
      rw [h1, List.append_assoc]
      congr 1
      conv_lhs => rw [← List.take_append_drop (n.length - 11) (n.drop 6)]
      congr 1
      rw [List.drop_drop]
      have he : 6 + (n.length - 11) = n.length - 5 := by omega
      rw [he, h2]
    · exact absurd h (by simp)
  · rintro ⟨v, rfl, rfl⟩
    unfold spicyWord
    rw [if_pos]
    · have hd : ("spicy-".toList ++ v ++ ".html".toList).drop 6 = v ++ ".html".toList := by
        rw [List.append_assoc]
        rw [show (6 : Nat) = ("spicy-".toList).length from by decide]
        exact List.drop_left _ _
      have hlen : ("spicy-".toList ++ v ++ ".html".toList).length = v.length + 11 := by
        simp [List.length_append]
      rw [hd, hlen]
      rw [show v.length + 11 - 11 = v.length from by omega]
      rw [List.take_left v _]
    · refine ⟨?_, ?_, ?_⟩
      · rw [List.append_assoc]
        rw [show (6 : Nat) = ("spicy-".toList).length from by decide]
        exact List.take_left _ _
      · have hl : ("spicy-".toList ++ v ++ ".html".toList).length - 5
            = ("spicy-".toList ++ v).length := by
          simp [List.length_append]
        rw [hl]
        exact List.drop_left _ _
      · simp [List.length_append]

theorem lowered_middle {files : List (List Char)}
    (hlc : ∀ n ∈ files, n.map Char.toLower = n) {v : List Char}
    (hv : ("spicy-".toList ++ v ++ ".html".toList) ∈ files) :
    v.map Char.toLower = v := by
  have h1 := hlc _ hv
  rw [List.map_append, List.map_append] at h1
  rw [show ("spicy-".toList).map Char.toLower = "spicy-".toList from by decide] at h1
  rw [show (".html".toList).map Char.toLower = ".html".toList from by decide] at h1
  exact List.append_cancel_left (List.append_cancel_right h1)

/-- C1: for every key with a forward-reference entry, explicit-hashtag
resolution produces exactly one copy-remote-message request built from
the stored chat id and message id; no local artifact is read or sent,
even when one exists for the key (the store is arbitrary). -/
theorem c1_forward_reference_wins (s : Store) (chatId rt st : Int) (tag : List Char)
    (fc fm : Int) (h : lookupMeta s.meta tag = some (fc, fm)) :
    tagSends s chatId rt st tag = [Req.copyMsg chatId fc fm (some rt)] := by
  unfold tagSends
  rw [h]

/-- C1 witness: a concrete store where the key has a forward-reference
and also a local artifact; the output is the single copy request. -/
theorem c1_forward_reference_wins_witness :
    tagSends ⟨[(['k'], (5, 9))], [("k.html".toList, "local".toList)]⟩ 1 10 20 ['k']
      = [Req.copyMsg 1 5 9 (some 10)] :=
  c1_forward_reference_wins _ 1 10 20 ['k'] 5 9 (by decide)

/-- C5: evaluation at the failing input: an inbound reply (message id
200, parent 100) containing the explicit hashtag `#v`, where `v` is an
HTML snippet with a single stored voice note.  The voice reply threads
under the inbound message itself (200, the spicy target of the source,
line 168 of bot.py) although explicit-hashtag replies are supposed to
thread under the parent (100). -/
theorem c5_hashtag_voice_reply_target :
    handleMessage ⟨"#v".toList, 200, some 100, 1⟩
        ⟨[], [("v.html".toList, "hi".toList), ("v_0.ogg".toList, [])]⟩
      = [Req.sendVoice 1 ("v_0.ogg".toList) (some ("hi".toList)) (some PM.html) (some 200)] := by
  decide

/-- C7 counterexample: with the single on-disk artifact `spicy-A.html`,
the vocabulary contains the word "a" although no artifact `spicy-a.html`
exists, so the vocabulary is not the claimed set of words. -/
theorem c7_uppercase_stem_counterexample :
    ['a'] ∈ loadSpicyTriggers [("spicy-A.html".toList)]
      ∧ ("spicy-".toList ++ ['a'] ++ ".html".toList) ∉ [("spicy-A.html".toList)] := by
  decide

/-- C7 (amended): the vocabulary equals the lower-cased middle parts of
the `spicy-*.html` artifacts currently in the snapshot; when every file
name is already lower-case, this is exactly the claimed set. -/
theorem c7_vocabulary_characterisation (files : List (List Char)) (w : List Char)
    (hlc : ∀ n ∈ files, n.map Char.toLower = n) :
    (w ∈ loadSpicyTriggers files
        ↔ ∃ v, ("spicy-".toList ++ v ++ ".html".toList) ∈ files ∧ w = v.map Char.toLower)
      ∧ (w ∈ loadSpicyTriggers files
        ↔ ("spicy-".toList ++ w ++ ".html".toList) ∈ files) := by
  have hiff : w ∈ loadSpicyTriggers files
      ↔ ∃ v, ("spicy-".toList ++ v ++ ".html".toList) ∈ files ∧ w = v.map Char.toLower := by
    unfold loadSpicyTriggers
    rw [List.mem_filterMap]
    constructor
    · rintro ⟨n, hn, hw⟩
      obtain ⟨v, rfl, rfl⟩ := (spicyWord_eq_some n w).mp hw
      exact ⟨v, hn, rfl⟩
    · rintro ⟨v, hv, rfl⟩
      exact ⟨_, hv, (spicyWord_eq_some _ _).mpr ⟨v, rfl, rfl⟩⟩
  refine ⟨hiff, hiff.trans ?_⟩
  constructor
  · rintro ⟨v, hv, rfl⟩
    rw [lowered_middle hlc hv]
    exact hv
  · intro hw
    exact ⟨w, hw, (lowered_middle hlc hw).symm⟩

/-- C7 witness: the characterisation applied to a lower-case store. -/
theorem c7_vocabulary_characterisation_witness :
    ['a'] ∈ loadSpicyTriggers [("spicy-a.html".toList)] :=
  ((c7_vocabulary_characterisation [("spicy-a.html".toList)] ['a'] (by decide)).2).mpr
    (by decide)

/-- C9: an inbound message with no explicit hashtag and no trigger-word
match produces no outbound request at all; a resolved key with neither a
forward-reference nor a local text artifact is skipped silently, in both
the hashtag and the trigger-word loop. -/
theorem c9_silent_on_no_match_and_not_found :
    (∀ (m : Msg) (s : Store),
        extractHashtags m.text = [] →
        extractSpicyTriggers m.text (loadSpicyTriggers (fileNames s.files)) = [] →
        handleMessage m s = [])
      ∧ (∀ (s : Store) (chatId rt st : Int) (tag : List Char),
          lookupMeta s.meta tag = none →
          alookup s.files (tag ++ ".md".toList) = none →
          alookup s.files (tag ++ ".html".toList) = none →
          tagSends s chatId rt st tag = [])
      ∧ (∀ (s : Store) (chatId rt st : Int) (w : List Char),
          alookup s.files (("spicy-".toList ++ w) ++ ".md".toList) = none →
          alookup s.files (("spicy-".toList ++ w) ++ ".html".toList) = none →
          spicySends s chatId rt st w = []) := by
  refine ⟨?_, ?_, ?_⟩
  · intro m s h1 h2
    unfold handleMessage
    by_cases ht : m.text = []
    · rw [if_pos ht]
    · rw [if_neg ht]
      simp [h1, h2]
  · intro s chatId rt st tag h1 h2 h3
    unfold tagSends
    rw [h1, h2, h3]
  · intro s chatId rt st w h1 h2
    unfold spicySends
    dsimp only
    rw [h1, h2]

/-- C9 witness: a plain message and an unknown key, both silent. -/
theorem c9_silent_witness :
    handleMessage ⟨"hello there".toList, 3, none, 1⟩ ⟨[], []⟩ = []
      ∧ tagSends ⟨[], []⟩ 1 10 20 ("ghost".toList) = [] :=
  ⟨c9_silent_on_no_match_and_not_found.1 ⟨"hello there".toList, 3, none, 1⟩ ⟨[], []⟩
      (by decide) (by decide),
   c9_silent_on_no_match_and_not_found.2.1 ⟨[], []⟩ 1 10 20 ("ghost".toList)
      (by decide) (by decide) (by decide)⟩

/-- C10: trigger-word resolution never consults the forward-reference
mapping: it never produces a copy request; and for a key `spicy-w` that
has only a forward-reference, the free-standing trigger word yields no
reply while the explicit hashtag `#spicy-w` yields the copy request. -/
theorem c10_spicy_never_copies :
    (∀ (s : Store) (chatId rt st : Int) (w : List Char) (r : Req),
        r ∈ spicySends s chatId rt st w → r.isCopy = false)
      ∧ (∀ (s : Store) (chatId rt st : Int) (w : List Char) (fc fm : Int),
          lookupMeta s.meta ("spicy-".toList ++ w) = some (fc, fm) →
          alookup s.files (("spicy-".toList ++ w) ++ ".md".toList) = none →
          alookup s.files (("spicy-".toList ++ w) ++ ".html".toList) = none →
          spicySends s chatId rt st w = []
            ∧ tagSends s chatId rt st ("spicy-".toList ++ w)
                = [Req.copyMsg chatId fc fm (some rt)]) := by
  constructor
  · intro s chatId rt st w r hr
    unfold spicySends at hr
    dsimp only at hr
    rcases hmd : alookup s.files (("spicy-".toList ++ w) ++ ".md".toList) with _ | md
    · rw [hmd] at hr
      rcases hh : alookup s.files (("spicy-".toList ++ w) ++ ".html".toList) with _ | html
      · rw [hh] at hr
        simp at hr
      · rw [hh] at hr
        exact htmlSendsSpicy_not_copy _ _ _ _ r hr
    · rw [hmd] at hr
      exact mdSendsSpicy_not_copy _ _ _ _ _ r hr
  · intro s chatId rt st w fc fm h1 h2 h3
    constructor
    · unfold spicySends
      dsimp only
      rw [h2, h3]
    · unfold tagSends
      rw [h1]

/-- C10 witness: key `spicy-big` with only a forward-reference. -/
theorem c10_spicy_never_copies_witness :
    spicySends ⟨[("spicy-big".toList, (5, 7))], []⟩ 1 10 20 ("big".toList) = []
      ∧ tagSends ⟨[("spicy-big".toList, (5, 7))], []⟩ 1 10 20 ("spicy-big".toList)
          = [Req.copyMsg 1 5 7 (some 10)] :=
  c10_spicy_never_copies.2 ⟨[("spicy-big".toList, (5, 7))], []⟩ 1 10 20 ("big".toList) 5 7
    (by decide) (by decide) (by decide)

theorem handleSave_forward (u : SaveUpd) (s : Store) (a : List Char)
    (rest : List (List Char)) (hr : u.hasReply = true) (ha : u.userId ∈ u.adminIds)
    (hargs : u.args = a :: rest) (hsize : maxMediaSaveSize < totalMediaSize u) :
    handleSave u s
      = ([Req.sendMsg u.chatId (savedForwardText (a.map Char.toLower)) none none],
         { s with meta := (metaSet s.meta (a.map Char.toLower)
             (u.replyChatId, u.replyMessageId)) }) := by
  unfold handleSave
  rw [hr, hargs]
  rw [if_neg (by simp), if_neg (by simp [ha])]
  dsimp only
  rw [if_pos hsize]

theorem handleSave_local (u : SaveUpd) (s : Store) (a : List Char)
    (rest : List (List Char)) (hr : u.hasReply = true) (ha : u.userId ∈ u.adminIds)
    (hargs : u.args = a :: rest) (hsize : totalMediaSize u ≤ maxMediaSaveSize) :
    handleSave u s
      = ([Req.sendMsg u.chatId (savedLocalText (a.map Char.toLower)) none none],
         { meta := metaErase s.meta (a.map Char.toLower),
           files := (aset
             (doDownloads fnameSave (a.map Char.toLower) 0 s.files (mediaEntriesOf u))
             ((a.map Char.toLower) ++ ".html".toList) (htmlContent u)) }) := by
  unfold handleSave
  rw [hr, hargs]
  rw [if_neg (by simp), if_neg (by simp [ha])]
  dsimp only
  rw [if_neg (Nat.not_lt.mpr hsize)]

theorem handleSavespicy_local (u : SaveUpd) (s : Store) (a : List Char)
    (rest : List (List Char)) (hr : u.hasReply = true) (ha : u.userId ∈ u.adminIds)
    (hargs : u.args = a :: rest) :
    handleSavespicy u s
      = ([Req.sendMsg u.chatId (savedSpicyText (a.map Char.toLower)) none none],
         { s with files := (aset
             (doDownloads fnameSavespicy ("spicy-".toList ++ a.map Char.toLower) 0 s.files
               (mediaEntriesOf u))
             (("spicy-".toList ++ a.map Char.toLower) ++ ".html".toList) (htmlContent u)) }) := by
  unfold handleSavespicy
  rw [hr, hargs]
  rw [if_neg (by simp), if_neg (by simp [ha])]

theorem mdSendsTag_group_long (chatId rt : Int) (body p : List Char)
    (rest : List (List Char)) (hnv : ¬(rest = [] ∧ suffixLower p ∈ voiceExts))
    (hb : body ≠ []) (hlen : 1024 < body.length) :
    mdSendsTag chatId rt body (p :: rest)
      = [Req.sendMsg chatId (mdEscape body) none (some rt),
         Req.sendMediaGroup chatId (mdGroup (mdEscape body) false (p :: rest)) (some rt)] := by
  unfold mdSendsTag
  dsimp only
  rw [if_neg hnv]
  simp [hb, hlen, mdGroup, mdGroupAux]

theorem mdSendsTag_group_short (chatId rt : Int) (body p : List Char)
    (rest : List (List Char)) (hnv : ¬(rest = [] ∧ suffixLower p ∈ voiceExts))
    (hb : body ≠ []) (hlen : body.length ≤ 1024) :
    mdSendsTag chatId rt body (p :: rest)
      = [Req.sendMediaGroup chatId (mdGroup (mdEscape body) true (p :: rest)) (some rt)] := by
  unfold mdSendsTag
  dsimp only
  rw [if_neg hnv]
  simp [hb, Nat.not_lt.mpr hlen, mdGroup, mdGroupAux]

theorem mdSendsSpicy_group_long (chatId rt st : Int) (body p : List Char)
    (rest : List (List Char)) (hnv : ¬(rest = [] ∧ suffixLower p ∈ voiceExts))
    (hb : body ≠ []) (hlen : 1024 < body.length) :
    mdSendsSpicy chatId rt st body (p :: rest)
      = [Req.sendMsg chatId (mdEscape body) none (some rt),
         Req.sendMediaGroup chatId (mdGroup (mdEscape body) false (p :: rest)) (some st)] := by
  unfold mdSendsSpicy
  dsimp only
  rw [if_neg hnv]
  simp [hb, hlen, mdGroup, mdGroupAux]

theorem mdSendsSpicy_group_short (chatId rt st : Int) (body p : List Char)
    (rest : List (List Char)) (hnv : ¬(rest = [] ∧ suffixLower p ∈ voiceExts))
    (hb : body ≠ []) (hlen : body.length ≤ 1024) :
    mdSendsSpicy chatId rt st body (p :: rest)
      = [Req.sendMediaGroup chatId (mdGroup (mdEscape body) true (p :: rest)) (some st)] := by
  unfold mdSendsSpicy
  dsimp only
  rw [if_neg hnv]
  simp [hb, Nat.not_lt.mpr hlen, mdGroup, mdGroupAux]

/-- C2 counterexample: the store holds a forward-reference for key
`spicy-big`; an authorized /savespicy for trigger word `big` writes the
local `spicy-big.html` artifact but leaves the forward-reference entry
in place, so the key ends with both records. -/
theorem c2_savespicy_keeps_forward_reference :
    lookupMeta ((handleSavespicy
          ⟨1, [1], 9, ["big".toList], true, some ("x".toList), none, 5, 7, [],
            none, none, none, none, none, none⟩
          ⟨[("spicy-big".toList, (5, 7))], []⟩).2).meta ("spicy-big".toList) = some (5, 7)
      ∧ ("spicy-big.html".toList) ∈ fileNames ((handleSavespicy
          ⟨1, [1], 9, ["big".toList], true, some ("x".toList), none, 5, 7, [],
            none, none, none, none, none, none⟩
          ⟨[("spicy-big".toList, (5, 7))], []⟩).2).files := by
  decide

/-- C2 (amended): a local /save (/saveng) for key K removes any
forward-reference entry for K and writes the local text artifact, and
doing the same save again still leaves no forward-reference (idempotent);
the trigger-word save /savespicy does not remove a pre-existing
forward-reference for its key (counterexample). -/
theorem c2_local_save_removes_forward_reference (u : SaveUpd) (s : Store) (a : List Char)
    (rest : List (List Char)) (hr : u.hasReply = true) (ha : u.userId ∈ u.adminIds)
    (hargs : u.args = a :: rest) (hsize : totalMediaSize u ≤ maxMediaSaveSize) :
    lookupMeta ((handleSave u s).2).meta (a.map Char.toLower) = none
      ∧ ((a.map Char.toLower) ++ ".html".toList) ∈ fileNames ((handleSave u s).2).files
      ∧ lookupMeta ((handleSave u ((handleSave u s).2)).2).meta (a.map Char.toLower)
          = none := by
  have h1 := handleSave_local u s a rest hr ha hargs hsize
  refine ⟨?_, ?_, ?_⟩
  · rw [h1]
    exact lookupMeta_metaErase _ _
  · rw [h1]
    exact mem_fileNames_aset _ _ _
  · rw [h1, handleSave_local u _ a rest hr ha hargs hsize]
    exact lookupMeta_metaErase _ _

/-- C2 witness: re-saving key `big` locally over a forward-reference. -/
theorem c2_local_save_removes_forward_reference_witness :
    lookupMeta ((handleSave
          ⟨1, [1], 9, ["big".toList], true, some ("x".toList), none, 5, 7, [],
            none, none, none, none, none, none⟩
          ⟨[("big".toList, (5, 7))], []⟩).2).meta ("big".toList) = none
      ∧ (("big".toList) ++ ".html".toList) ∈ fileNames ((handleSave
          ⟨1, [1], 9, ["big".toList], true, some ("x".toList), none, 5, 7, [],
            none, none, none, none, none, none⟩
          ⟨[("big".toList, (5, 7))], []⟩).2).files
      ∧ lookupMeta ((handleSave
          ⟨1, [1], 9, ["big".toList], true, some ("x".toList), none, 5, 7, [],
            none, none, none, none, none, none⟩
          ((handleSave
            ⟨1, [1], 9, ["big".toList], true, some ("x".toList), none, 5, 7, [],
              none, none, none, none, none, none⟩
            ⟨[("big".toList, (5, 7))], []⟩).2)).2).meta ("big".toList) = none :=
  c2_local_save_removes_forward_reference
    ⟨1, [1], 9, ["big".toList], true, some ("x".toList), none, 5, 7, [],
      none, none, none, none, none, none⟩
    ⟨[("big".toList, (5, 7))], []⟩ ("big".toList) []
    (by decide) (by decide) (by decide) (by decide)

/-- C4 counterexample: an authorized /savespicy whose single attachment
reports 10 MiB + 1 bytes still saves locally (downloads the attachment
and writes the `.html` artifact) and writes no forward-reference. -/
theorem c4_savespicy_ignores_threshold :
    totalMediaSize
        ⟨1, [1], 9, ["big".toList], true, some ("x".toList), none, 5, 7, [],
          some ⟨10 * 1024 * 1024 + 1, some ("f.pdf".toList), none, "u1".toList, true⟩,
          none, none, none, none, none⟩
      = maxMediaSaveSize + 1
      ∧ ((handleSavespicy
          ⟨1, [1], 9, ["big".toList], true, some ("x".toList), none, 5, 7, [],
            some ⟨10 * 1024 * 1024 + 1, some ("f.pdf".toList), none, "u1".toList, true⟩,
            none, none, none, none, none⟩
          ⟨[], []⟩).2).meta = []
      ∧ ("spicy-big_0.pdf".toList) ∈ fileNames ((handleSavespicy
          ⟨1, [1], 9, ["big".toList], true, some ("x".toList), none, 5, 7, [],
            some ⟨10 * 1024 * 1024 + 1, some ("f.pdf".toList), none, "u1".toList, true⟩,
            none, none, none, none, none⟩
          ⟨[], []⟩).2).files
      ∧ ("spicy-big.html".toList) ∈ fileNames ((handleSavespicy
          ⟨1, [1], 9, ["big".toList], true, some ("x".toList), none, 5, 7, [],
            some ⟨10 * 1024 * 1024 + 1, some ("f.pdf".toList), none, "u1".toList, true⟩,
            none, none, none, none, none⟩
          ⟨[], []⟩).2).files := by
  decide

/-- C4 (amended): the 10 MiB threshold governs /save (/saveng) only: a
sum strictly over the threshold writes a forward-reference and downloads
nothing (the file set is unchanged); a sum at or under it saves locally
and removes any forward-reference.  /savespicy applies no threshold
(counterexample). -/
theorem c4_save_size_threshold (u : SaveUpd) (s : Store) (a : List Char)
    (rest : List (List Char)) (hr : u.hasReply = true) (ha : u.userId ∈ u.adminIds)
    (hargs : u.args = a :: rest) :
    (maxMediaSaveSize < totalMediaSize u →
        handleSave u s
          = ([Req.sendMsg u.chatId (savedForwardText (a.map Char.toLower)) none none],
             { s with meta := (metaSet s.meta (a.map Char.toLower)
                 (u.replyChatId, u.replyMessageId)) }))
      ∧ (totalMediaSize u ≤ maxMediaSaveSize →
          handleSave u s
            = ([Req.sendMsg u.chatId (savedLocalText (a.map Char.toLower)) none none],
               { meta := metaErase s.meta (a.map Char.toLower),
                 files := (aset
                   (doDownloads fnameSave (a.map Char.toLower) 0 s.files (mediaEntriesOf u))
                   ((a.map Char.toLower) ++ ".html".toList) (htmlContent u)) })) :=
  ⟨fun hs => handleSave_forward u s a rest hr ha hargs hs,
   fun hs => handleSave_local u s a rest hr ha hargs hs⟩

/-- C4 witness: an oversize /save becomes a forward-reference save with
the file set untouched. -/
theorem c4_save_size_threshold_witness :
    handleSave
        ⟨1, [1], 9, ["big".toList], true, some ("x".toList), none, 5, 7, [],
          some ⟨10 * 1024 * 1024 + 1, some ("f.pdf".toList), none, "u1".toList, true⟩,
          none, none, none, none, none⟩
        ⟨[], []⟩
      = ([Req.sendMsg 9 (savedForwardText ("big".toList)) none none],
         ⟨metaSet [] ("big".toList) (5, 7), []⟩) :=
  (c4_save_size_threshold
      ⟨1, [1], 9, ["big".toList], true, some ("x".toList), none, 5, 7, [],
        some ⟨10 * 1024 * 1024 + 1, some ("f.pdf".toList), none, "u1".toList, true⟩,
        none, none, none, none, none⟩
      ⟨[], []⟩ ("big".toList) [] (by decide) (by decide) (by decide)).1 (by decide)

/-- C8: with a replied-to source message present, a caller outside the
admin set gets a permission-denied reply in the same chat and the store
is unchanged, for both /save and /savespicy; an admin caller with no key
argument gets the usage reply and the store is unchanged. -/
theorem c8_admission_checks (u : SaveUpd) (s : Store) (hr : u.hasReply = true) :
    (u.userId ∉ u.adminIds →
        handleSave u s
            = ([Req.sendMsg u.chatId (permissionDeniedText u.userId) none none], s)
          ∧ handleSavespicy u s
            = ([Req.sendMsg u.chatId (permissionDeniedText u.userId) none none], s))
      ∧ (u.userId ∈ u.adminIds → u.args = [] →
          handleSave u s = ([Req.sendMsg u.chatId usageSaveText none none], s)
            ∧ handleSavespicy u s
              = ([Req.sendMsg u.chatId usageSavespicyText none none], s)) := by
  constructor
  · intro hna
    constructor
    · unfold handleSave
      rw [hr, if_neg (by simp), if_pos hna]
    · unfold handleSavespicy
      rw [hr, if_neg (by simp), if_pos hna]
  · intro ha hargs
    constructor
    · unfold handleSave
      rw [hr, hargs, if_neg (by simp), if_neg (by simp [ha])]
    · unfold handleSavespicy
      rw [hr, hargs, if_neg (by simp), if_neg (by simp [ha])]

/-- C8 witness: a non-admin caller (id 2, admin set only id 1). -/
theorem c8_admission_checks_witness :
    handleSave ⟨2, [1], 9, ["k".toList], true, none, none, 5, 7, [],
        none, none, none, none, none, none⟩ ⟨[], []⟩
      = ([Req.sendMsg 9 (permissionDeniedText 2) none none], ⟨[], []⟩)
      ∧ handleSavespicy ⟨2, [1], 9, ["k".toList], true, none, none, 5, 7, [],
          none, none, none, none, none, none⟩ ⟨[], []⟩
        = ([Req.sendMsg 9 (permissionDeniedText 2) none none], ⟨[], []⟩) :=
  (c8_admission_checks
      ⟨2, [1], 9, ["k".toList], true, none, none, 5, 7, [],
        none, none, none, none, none, none⟩
      ⟨[], []⟩ (by decide)).1 (by decide)

set_option maxRecDepth 100000 in
/-- C3 counterexample: an HTML-flavored record whose body is 1025
characters long and has one stored photo is served as a media group with
the full body attached as the caption of the only item and no preceding
text message, contradicting the claimed over-1024 split. -/
theorem c3_html_attaches_long_caption :
    handleMessage ⟨"#c".toList, 3, none, 1⟩
        ⟨[], [("c.html".toList, List.replicate 1025 'a'), ("c_0.jpg".toList, [])]⟩
      = [Req.sendMediaGroup 1
          [⟨MKind.photo, "c_0.jpg".toList, some (List.replicate 1025 'a'), some PM.html⟩]
          (some 3)]
      ∧ 1024 < (List.replicate 1025 'a').length := by
  constructor
  · decide
  · decide

/-- C3 (amended): for markdown-flavored records sent as a media group, a
non-empty body longer than 1024 characters is sent as a separate text
message preceding the group and no item carries a caption, while a
non-empty body of at most 1024 characters is attached (escaped) as the
caption of the first item in slot order only — in both the hashtag and
the trigger-word loop; HTML-flavored records attach the body to the
first item regardless of length (counterexample). -/
theorem c3_caption_length_split (chatId rt st : Int) (body p : List Char)
    (rest : List (List Char)) (hnv : ¬(rest = [] ∧ suffixLower p ∈ voiceExts)) :
    (body ≠ [] → 1024 < body.length →
        mdSendsTag chatId rt body (p :: rest)
            = [Req.sendMsg chatId (mdEscape body) none (some rt),
               Req.sendMediaGroup chatId (mdGroup (mdEscape body) false (p :: rest)) (some rt)]
          ∧ mdSendsSpicy chatId rt st body (p :: rest)
            = [Req.sendMsg chatId (mdEscape body) none (some rt),
               Req.sendMediaGroup chatId (mdGroup (mdEscape body) false (p :: rest)) (some st)]
          ∧ (∀ it ∈ mdGroup (mdEscape body) false (p :: rest), it.caption = none))
      ∧ (body ≠ [] → body.length ≤ 1024 →
          mdSendsTag chatId rt body (p :: rest)
              = [Req.sendMediaGroup chatId (mdGroup (mdEscape body) true (p :: rest)) (some rt)]
            ∧ mdSendsSpicy chatId rt st body (p :: rest)
              = [Req.sendMediaGroup chatId (mdGroup (mdEscape body) true (p :: rest)) (some st)]
            ∧ mdGroup (mdEscape body) true (p :: rest)
                = ⟨kindOf p, p, some (mdEscape body), some PM.markdownV2⟩
                    :: mdGroupAux (mdEscape body) true 1 rest
            ∧ (∀ it ∈ mdGroupAux (mdEscape body) true 1 rest, it.caption = none)) := by
  constructor
  · intro hb hlen
    exact ⟨mdSendsTag_group_long chatId rt body p rest hnv hb hlen,
      mdSendsSpicy_group_long chatId rt st body p rest hnv hb hlen,
      mdGroup_false_caption_none _ _⟩
  · intro hb hlen
    refine ⟨mdSendsTag_group_short chatId rt body p rest hnv hb hlen,
      mdSendsSpicy_group_short chatId rt st body p rest hnv hb hlen, ?_, ?_⟩
    · simp [mdGroup, mdGroupAux, mdItem]
    · intro it hit
      exact mdGroupAux_caption_none _ _ rest 0 it hit

/-- C3 witness: a 2-character body with one photo gets the caption on
the first (only) item. -/
theorem c3_caption_length_split_witness :
    mdSendsTag 1 10 ("hi".toList) [("x_0.jpg".toList)]
      = [Req.sendMediaGroup 1
          (mdGroup (mdEscape ("hi".toList)) true [("x_0.jpg".toList)]) (some 10)] :=
  ((c3_caption_length_split 1 10 20 ("hi".toList) ("x_0.jpg".toList) [] (by decide)).2
    (by decide) (by decide)).1

/-- C6: for every markdown-flavored body without a literal backslash,
the delivered text is exactly the character-wise MarkdownV2 escaping in
which every escape-set character except the six `* _ [ ] ( )` receives a
backslash and the six stay bare; in particular `*` survives unescaped
while `.` is escaped. -/
theorem c6_selective_escaping (body : List Char) (h : '\\' ∉ body) :
    mdEscape body = body.flatMap mdEscapeChar
      ∧ (∀ c ∈ sixSpecials, mdEscapeChar c = [c])
      ∧ mdEscapeChar '.' = ['\\', '.'] :=
  ⟨mdEscape_eq_flatMap body h, by decide, by decide⟩

/-- C6 witness: the body `*bold*.` is delivered with the stars intact
and the dot escaped. -/
theorem c6_selective_escaping_witness :
    mdEscape ("*bold*.".toList) = "*bold*\\.".toList := by
  rw [(c6_selective_escaping ("*bold*.".toList) (by decide)).1]
  decide
